import Mathlib

set_option autoImplicit false

/-!
Shallow embedding of the `count-map` library (`src/index.js`).

Keys are modelled as integers (`Int`), the value domain exercised by the
library's test-suite and documentation.  A JavaScript hash function is a pair
of its source text (what `Function.prototype.toString()` returns, compared by
`equals`) and the function itself; the two are independent, as in JavaScript,
where two closures can share source text yet behave differently and vice
versa.  The internal object `this.counts` is modelled as a list of records in
insertion order; `Object.values` enumeration is abstracted as list order.
`RangeError` throws become `Except.error`.
-/

/-- A JavaScript function value: its `toString()` source text plus the
    mapping it computes.  (`equals` compares the text, not the mapping.) -/
structure HashFn where
  src : String
  fn : Int → String

/-- The constructor default `(key) => key.toString()`; on integers,
    JavaScript `Number.prototype.toString()` is the decimal representation. -/
def defaultHash : HashFn :=
  { src := "(key) => key.toString()", fn := fun key => toString key }

/-- The test-suite's `(a) => Math.round(a / 2).toString()`.  On an integer
    `a`, `Math.round(a / 2)` (round half toward positive infinity) equals the
    floor of `(a + 1) / 2`, i.e. `(a + 1).fdiv 2`. -/
def hashHalf : HashFn :=
  { src := "(a) => Math.round(a / 2).toString()",
    fn := fun a => toString ((a + 1).fdiv 2) }

/-- One record of the internal table: the `countObject` typedef
    `{ hash, key, count }` of `src/index.js`. -/
structure CountObject where
  hash : String
  key : Int
  count : Int
deriving DecidableEq, Repr

/-- The `RangeError` exceptions thrown by `add`, `subtract` and `set`. -/
inductive JsError where
  | rangeError (msg : String)
deriving DecidableEq, Repr

/-- A `CountMap` instance: the table `this.counts`, the hash function
    `this.hash`, and the flag `this.allowNegativeCounts`. -/
structure CountMap where
  counts : List CountObject
  hash : HashFn
  allowNegativeCounts : Bool

namespace CountMap

/-- Table lookup `this.counts[hashed]`: the record stored under a hash token,
    if any.  (Tokens are unique in the table, so first-match is exact.) -/
def lookup (m : CountMap) (hashed : String) : Option CountObject :=
  m.counts.find? (fun r => r.hash == hashed)

/-- In-place update `this.counts[hashed].count = f(count)`, expressed on the
    list representation of the table. -/
def updateCount (l : List CountObject) (hashed : String) (f : Int → Int) :
    List CountObject :=
  l.map (fun s => if s.hash == hashed then { s with count := f s.count } else s)

/-- Method `add(key, amount = 1)`: throws when `amount < 0`; otherwise creates
    the record (count `amount`) or increments the existing count, returning
    the resulting count together with the mutated map. -/
def add (m : CountMap) (key : Int) (amount : Int := 1) :
    Except JsError (Int × CountMap) :=
  if amount < 0 then
    .error (.rangeError ("Amount should be positive. Try using subtract method."))
  else
    let hashed := m.hash.fn key
    match m.lookup hashed with
    | none =>
        let r : CountObject := { hash := hashed, key := key, count := amount }
        .ok (amount, { m with counts := m.counts ++ [r] })
    | some r =>
        .ok (r.count + amount,
             { m with counts := updateCount m.counts hashed (· + amount) })

/-- Method `subtract(key, amount = 1)`: throws when `amount < 0`; decrements
    an existing record (clamping at 0 unless `allowNegativeCounts`), returning
    the final stored count; on an absent token returns 0 without mutation. -/
def subtract (m : CountMap) (key : Int) (amount : Int := 1) :
    Except JsError (Int × CountMap) :=
  if amount < 0 then
    .error (.rangeError ("Amount to subtract by should be positive."))
  else
    let hashed := m.hash.fn key
    match m.lookup hashed with
    | some r =>
        let c := if !m.allowNegativeCounts && r.count - amount < 0 then 0
                 else r.count - amount
        .ok (c, { m with counts := updateCount m.counts hashed (fun _ => c) })
    | none => .ok (0, m)

/-- Method `set(key, amount)`: throws when `amount < 0` and negative counts
    are disallowed; overwrites an existing record's count, or delegates to
    `add` when the token is absent (so `add`'s own negativity guard runs
    there). -/
def set (m : CountMap) (key : Int) (amount : Int) :
    Except JsError (Int × CountMap) :=
  if !m.allowNegativeCounts && amount < 0 then
    .error (.rangeError ("Negative mode disabled. Amount should be positive."))
  else
    let hashed := m.hash.fn key
    match m.lookup hashed with
    | none => m.add key amount
    | some _ =>
        .ok (amount, { m with counts := updateCount m.counts hashed (fun _ => amount) })

/-- Method `delete(key)`: removes the record for the token, returning whether
    one existed, together with the resulting map. -/
def delete (m : CountMap) (key : Int) : Bool × CountMap :=
  let hashed := m.hash.fn key
  match m.lookup hashed with
  | some _ => (true, { m with counts := m.counts.filter (fun r => !(r.hash == hashed)) })
  | none => (false, m)

/-- Method `get(key)`: the stored count for the token, or 0. -/
def get (m : CountMap) (key : Int) : Int :=
  match m.lookup (m.hash.fn key) with
  | some r => r.count
  | none => 0

/-- Method `has(key)`: whether a record exists for the token. -/
def has (m : CountMap) (key : Int) : Bool :=
  (m.lookup (m.hash.fn key)).isSome

/-- Method `keys()`: the representative key of every record. -/
def keys (m : CountMap) : List Int :=
  m.counts.map (fun r => r.key)

/-- Method `entries()`: `[key, count]` for every record. -/
def entries (m : CountMap) : List (Int × Int) :=
  m.counts.map (fun r => (r.key, r.count))

/-- The loop body of `concat` and of the constructor's bulk-load:
    `for (let key of arr) map.add(key)` (amount 1 each). -/
def addAll (m : CountMap) (arr : List Int) : Except JsError CountMap :=
  match arr with
  | [] => .ok m
  | k :: rest =>
      match m.add k with
      | .error e => .error e
      | .ok (_, m') => addAll m' rest

/-- The loop of `rehash`: `entries.forEach(([key, count]) => this.add(key, count))`. -/
def addAllPairs (m : CountMap) (es : List (Int × Int)) : Except JsError CountMap :=
  match es with
  | [] => .ok m
  | (k, c) :: rest =>
      match m.add k c with
      | .error e => .error e
      | .ok (_, m') => addAllPairs m' rest

/-- The loop of `clone`: `entries().forEach(([key, count]) => cloned.set(key, count))`. -/
def setAll (m : CountMap) (es : List (Int × Int)) : Except JsError CountMap :=
  match es with
  | [] => .ok m
  | (k, c) :: rest =>
      match m.set k c with
      | .error e => .error e
      | .ok (_, m') => setAll m' rest

/-- The constructor `new CountMap({array, hash, allowNegativeCounts})`:
    starts from an empty table and runs `this.concat(array, true)`,
    i.e. bulk-adds each initial key with amount 1 in order. -/
def make (array : List Int := []) (hash : HashFn := defaultHash)
    (allowNegativeCounts : Bool := false) : Except JsError CountMap :=
  addAll { counts := [], hash := hash, allowNegativeCounts := allowNegativeCounts }
    array

/-- Method `clone()`: a fresh map with the same hash function and flag, each
    record re-established via `set(key, count)` on the clone. -/
def clone (m : CountMap) : Except JsError CountMap :=
  match make [] m.hash m.allowNegativeCounts with
  | .error e => .error e
  | .ok cloned => setAll cloned m.entries

/-- Method `concat(arr, inPlace = false)`: adds every element (amount 1) to
    `this` or to a clone. -/
def concat (m : CountMap) (arr : List Int) (inPlace : Bool := false) :
    Except JsError CountMap :=
  match (if inPlace then Except.ok m else m.clone) with
  | .error e => .error e
  | .ok target => addAll target arr

/-- Method `rehash()`: the source reads `this.count = {}` — it assigns a
    fresh, otherwise-unused property `count` instead of clearing the table
    `counts` (the embedding drops that dead assignment), then re-adds every
    existing entry on top of the still-populated table. -/
def rehash (m : CountMap) : Except JsError CountMap :=
  addAllPairs m m.entries

/-- Method `toArray()`: each entry pushes its key `count` times
    (`for (let i = 0; i < count; i++)`, hence `max count 0` pushes). -/
def toArray (m : CountMap) : List Int :=
  m.entries.foldl (fun arr e => arr ++ List.replicate e.2.toNat e.1) []

/-- Method `equals(other)`: textual hash-function equality, flag equality,
    and equal `get` results over the keys of both maps. -/
def equals (m other : CountMap) : Bool :=
  if other.hash.src != m.hash.src ||
      other.allowNegativeCounts != m.allowNegativeCounts then
    false
  else
    let testKey := fun key => m.get key == other.get key
    other.keys.all testKey && m.keys.all testKey

/-- The table invariant of non-negative mode: every stored count is `≥ 0`. -/
def NonNeg (m : CountMap) : Prop := ∀ r ∈ m.counts, 0 ≤ r.count

instance (m : CountMap) : Decidable (NonNeg m) := by
  unfold NonNeg; infer_instance

/-- A freshly constructed default map: `new CountMap({})`. -/
def emptyStd : CountMap :=
  { counts := [], hash := defaultHash, allowNegativeCounts := false }

/-- The result map of an `add`/`subtract`/`set` call, or the receiver itself
    when the call threw (a throw happens before any mutation). -/
def resultOrSelf (m : CountMap) (r : Except JsError (Int × CountMap)) : CountMap :=
  match r with
  | .ok p => p.2
  | .error _ => m

/-- Everything an operation on a different token must leave intact: the
    `get` and `has` views of the other key, the hash function, and the flag. -/
def Unchanged (m m' : CountMap) (k' : Int) : Prop :=
  m'.get k' = m.get k' ∧ m'.has k' = m.has k' ∧ m'.hash = m.hash ∧
    m'.allowNegativeCounts = m.allowNegativeCounts

/-- The mutating operations of the public API.  The construction bulk-load is
    `this.concat(array, true)` run on the empty table, i.e. the instance
    `Op.concat array true` applied to a map with `counts = []`. -/
inductive Op where
  | add (key amount : Int)
  | subtract (key amount : Int)
  | set (key amount : Int)
  | concat (arr : List Int) (inPlace : Bool)
  | delete (key : Int)
  | clone
  | rehash

/-- Run one mutating operation and return the map it leaves behind: the
    receiver for the in-place operations, the fresh map for `clone` and
    out-of-place `concat`. -/
def Op.apply (op : Op) (m : CountMap) : Except JsError CountMap :=
  match op with
  | .add k a =>
      match m.add k a with
      | .error e => .error e
      | .ok p => .ok p.2
  | .subtract k a =>
      match m.subtract k a with
      | .error e => .error e
      | .ok p => .ok p.2
  | .set k a =>
      match m.set k a with
      | .error e => .error e
      | .ok p => .ok p.2
  | .concat arr ip => m.concat arr ip
  | .delete k => .ok (m.delete k).2
  | .clone => m.clone
  | .rehash => m.rehash

/-- A concrete `new CountMap({array: [1, 1]})`. -/
def pairMap : CountMap :=
  { counts := [{ hash := "1", key := 1, count := 2 }],
    hash := defaultHash, allowNegativeCounts := false }

/-- The map `pairMap` after `subtract(1, 5)`: the count clamps to 0. -/
def pairMapClamped : CountMap :=
  { counts := [{ hash := "1", key := 1, count := 0 }],
    hash := defaultHash, allowNegativeCounts := false }

/-- Modelled from the spec's wording, for comparison with the source's
    `equals`: textually identical hash functions, matching flags, and equal
    `get` results on every key that is a representative in either map. -/
def equalsSpec (m o : CountMap) : Prop :=
  m.hash.src = o.hash.src ∧ m.allowNegativeCounts = o.allowNegativeCounts ∧
    ∀ k, (k ∈ m.keys ∨ k ∈ o.keys) → m.get k = o.get k

end CountMap

/-- The initial array of the test-suite and of the spec's concrete scenario. -/
def testItems : List Int := [1, 1, 1, 2, 3, 4, 4, 4, 3, 3, 8, 1000, 2, 18]

/-- Keys 2 and 3 loaded under the default (identity-style) hash, then the
    hash function changed to `round(x/2)` and `rehash()` called. -/
def rehashDemo : Except JsError CountMap :=
  match CountMap.make [2, 3] with
  | .error e => .error e
  | .ok m => CountMap.rehash { m with hash := hashHalf }

/-- Call `set(8, -3)` on a freshly constructed map with
    `allowNegativeCounts = true` (token `"8"` absent). -/
def setNegativeAbsentDemo : Except JsError (Int × CountMap) :=
  match CountMap.make [] defaultHash true with
  | .error e => .error e
  | .ok m => m.set 8 (-3)

/-- Call `set(8, -3)` on a negative-mode map already holding key 8; reports
    the returned count and `get(8)` afterwards. -/
def setNegativePresentDemo : Except JsError (Int × Int) :=
  match CountMap.make [8] defaultHash true with
  | .error e => .error e
  | .ok m => (m.set 8 (-3)).map (fun p => (p.1, p.2.get 8))

/-- A negative-mode map driven to a stored count of `-1` on key 8, then
    `clone()` called. -/
def cloneNegativeDemo : Except JsError CountMap :=
  match CountMap.make [8] defaultHash true with
  | .error e => .error e
  | .ok m =>
      match m.subtract 8 2 with
      | .error e => .error e
      | .ok (_, m') => m'.clone

namespace CountMap

theorem find?_updateCount_self (l : List CountObject) (t : String) (f : Int → Int) :
    (updateCount l t f).find? (fun r => r.hash == t) =
      (l.find? (fun r => r.hash == t)).map (fun r => { r with count := f r.count }) := by
  induction l with
  | nil => rfl
  | cons s rest ih =>
      by_cases h : s.hash = t
      · simp [updateCount, h]
      · simp only [updateCount, List.map_cons] at ih ⊢
        rw [if_neg (by simpa using h)]
        rw [List.find?_cons_of_neg _ (by simpa using h),
            List.find?_cons_of_neg _ (by simpa using h)]
        exact ih

theorem find?_updateCount_ne (l : List CountObject) (t t' : String) (f : Int → Int)
    (h : t ≠ t') :
    (updateCount l t f).find? (fun r => r.hash == t') =
      l.find? (fun r => r.hash == t') := by
  induction l with
  | nil => rfl
  | cons s rest ih =>
      simp only [updateCount, List.map_cons] at ih ⊢
      by_cases hs : s.hash = t
      · rw [if_pos (by simpa using hs)]
        rw [List.find?_cons_of_neg _ (by simpa using (hs ▸ h : s.hash ≠ t')),
            List.find?_cons_of_neg _ (by simp [hs]; exact h)]
        exact ih
      · rw [if_neg (by simpa using hs)]
        by_cases hs' : s.hash = t'
        · rw [List.find?_cons_of_pos _ (by simpa using hs'),
              List.find?_cons_of_pos _ (by simpa using hs')]
        · rw [List.find?_cons_of_neg _ (by simpa using hs'),
              List.find?_cons_of_neg _ (by simpa using hs')]
          exact ih

theorem find?_filter_ne (l : List CountObject) (t t' : String) (h : t ≠ t') :
    (l.filter (fun r => !(r.hash == t))).find? (fun r => r.hash == t') =
      l.find? (fun r => r.hash == t') := by
  induction l with
  | nil => rfl
  | cons s rest ih =>
      by_cases hs : s.hash = t
      · rw [List.filter_cons_of_neg (by simp [hs])]
        rw [List.find?_cons_of_neg _ (by simp [hs]; exact h)]
        exact ih
      · rw [List.filter_cons_of_pos (by simpa using hs)]
        by_cases hs' : s.hash = t'
        · rw [List.find?_cons_of_pos _ (by simpa using hs'),
              List.find?_cons_of_pos _ (by simpa using hs')]
        · rw [List.find?_cons_of_neg _ (by simpa using hs'),
              List.find?_cons_of_neg _ (by simpa using hs')]
          exact ih

theorem delete_of_lookup_none {m : CountMap} {k : Int}
    (hl : m.lookup (m.hash.fn k) = none) : m.delete k = (false, m) := by
  simp only [delete]
  rw [hl]

theorem delete_of_lookup_some {m : CountMap} {k : Int} {r : CountObject}
    (hl : m.lookup (m.hash.fn k) = some r) :
    m.delete k =
      (true, { m with counts := m.counts.filter (fun s => !(s.hash == m.hash.fn k)) }) := by
  simp only [delete]
  rw [hl]

end CountMap

namespace CountMap

theorem nonneg_updateCount (l : List CountObject) (t : String) (f : Int → Int)
    (hl : ∀ r ∈ l, 0 ≤ r.count) (hf : ∀ c, 0 ≤ c → 0 ≤ f c) :
    ∀ r ∈ updateCount l t f, 0 ≤ r.count := by
  intro r hr
  rw [updateCount, List.mem_map] at hr
  obtain ⟨s, hs, heq⟩ := hr
  subst heq
  by_cases h : s.hash = t
  · simpa [h] using hf _ (hl s hs)
  · simpa [h] using hl s hs

theorem add_ok_elim {m : CountMap} {k a c : Int} {m' : CountMap}
    (h : m.add k a = .ok (c, m')) :
    ¬ a < 0 ∧ m'.hash = m.hash ∧ m'.allowNegativeCounts = m.allowNegativeCounts ∧
    ((m.lookup (m.hash.fn k) = none ∧ c = a ∧
        m'.counts = m.counts ++ [⟨m.hash.fn k, k, a⟩]) ∨
     (∃ r, m.lookup (m.hash.fn k) = some r ∧ c = r.count + a ∧
        m'.counts = updateCount m.counts (m.hash.fn k) (· + a))) := by
  simp only [add] at h
  split at h
  · cases h
  · next ha =>
    refine ⟨ha, ?_⟩
    split at h
    · next hl =>
      cases h
      exact ⟨rfl, rfl, Or.inl ⟨hl, rfl, rfl⟩⟩
    · next r hl =>
      cases h
      exact ⟨rfl, rfl, Or.inr ⟨r, hl, rfl, rfl⟩⟩

theorem subtract_ok_elim {m : CountMap} {k a c : Int} {m' : CountMap}
    (h : m.subtract k a = .ok (c, m')) :
    ¬ a < 0 ∧ m'.hash = m.hash ∧ m'.allowNegativeCounts = m.allowNegativeCounts ∧
    ((m.lookup (m.hash.fn k) = none ∧ c = 0 ∧ m' = m) ∨
     (∃ r, m.lookup (m.hash.fn k) = some r ∧
        c = (if !m.allowNegativeCounts && r.count - a < 0 then 0 else r.count - a) ∧
        m'.counts = updateCount m.counts (m.hash.fn k) (fun _ => c))) := by
  simp only [subtract] at h
  split at h
  · cases h
  · next ha =>
    refine ⟨ha, ?_⟩
    split at h
    · next r hl =>
      cases h
      exact ⟨rfl, rfl, Or.inr ⟨r, hl, rfl, rfl⟩⟩
    · next hl =>
      cases h
      exact ⟨rfl, rfl, Or.inl ⟨hl, rfl, rfl⟩⟩

theorem set_ok_elim {m : CountMap} {k a c : Int} {m' : CountMap}
    (h : m.set k a = .ok (c, m')) :
    m'.hash = m.hash ∧ m'.allowNegativeCounts = m.allowNegativeCounts ∧
    ((m.lookup (m.hash.fn k) = none ∧ m.add k a = .ok (c, m')) ∨
     (∃ r, m.lookup (m.hash.fn k) = some r ∧ c = a ∧
        m'.counts = updateCount m.counts (m.hash.fn k) (fun _ => a))) := by
  simp only [set] at h
  split at h
  · cases h
  · split at h
    · next hl =>
      obtain ⟨_, h2, h3, _⟩ := add_ok_elim h
      exact ⟨h2, h3, Or.inl ⟨hl, h⟩⟩
    · next r hl =>
      cases h
      exact ⟨rfl, rfl, Or.inr ⟨r, hl, rfl, rfl⟩⟩

end CountMap

namespace CountMap

theorem find?_append_single_ne (l : List CountObject) (r : CountObject) (t' : String)
    (h : r.hash ≠ t') :
    (l ++ [r]).find? (fun s => s.hash == t') = l.find? (fun s => s.hash == t') := by
  rw [List.find?_append, List.find?_cons_of_neg _ (by simpa using h)]
  simp

theorem unchanged_refl (m : CountMap) (k' : Int) : Unchanged m m k' :=
  ⟨rfl, rfl, rfl, rfl⟩

theorem unchanged_of_find?_eq {m m' : CountMap} {k' : Int}
    (hh : m'.hash = m.hash) (hf : m'.allowNegativeCounts = m.allowNegativeCounts)
    (hfind : m'.counts.find? (fun s => s.hash == m.hash.fn k') =
      m.counts.find? (fun s => s.hash == m.hash.fn k')) :
    Unchanged m m' k' := by
  refine ⟨?_, ?_, hh, hf⟩
  · rw [get, get, lookup, lookup, hh, hfind]
  · rw [has, has, lookup, lookup, hh, hfind]

end CountMap

namespace CountMap

/-- C10: a single-key mutating operation on `k` — `add`, `subtract`, `set`,
    `delete` — leaves the `get`/`has` views of every key `k'` with a
    different hash token unchanged, along with the hash function and the
    `allowNegativeCounts` flag.  (When the call throws, no mutation happened
    at all, so the frame holds vacuously via `resultOrSelf`.) -/
theorem single_key_ops_frame (m : CountMap) (k k' a : Int)
    (h : m.hash.fn k ≠ m.hash.fn k') :
    Unchanged m (resultOrSelf m (m.add k a)) k' ∧
    Unchanged m (resultOrSelf m (m.subtract k a)) k' ∧
    Unchanged m (resultOrSelf m (m.set k a)) k' ∧
    Unchanged m (m.delete k).2 k' := by
  refine ⟨?_, ?_, ?_, ?_⟩
  · cases hr : m.add k a with
    | error e => exact unchanged_refl m k'
    | ok p =>
      obtain ⟨c, m'⟩ := p
      obtain ⟨ha, hh, hf, hcase⟩ := add_ok_elim hr
      apply unchanged_of_find?_eq hh hf
      rcases hcase with ⟨hl, hc, hcounts⟩ | ⟨r, hl, hc, hcounts⟩
      · rw [hcounts]
        exact find?_append_single_ne _ _ _ h
      · rw [hcounts]
        exact find?_updateCount_ne _ _ _ _ h
  · cases hr : m.subtract k a with
    | error e => exact unchanged_refl m k'
    | ok p =>
      obtain ⟨c, m'⟩ := p
      obtain ⟨ha, hh, hf, hcase⟩ := subtract_ok_elim hr
      rcases hcase with ⟨hl, hc, hm⟩ | ⟨r, hl, hc, hcounts⟩
      · rw [hm]; exact unchanged_refl m k'
      · apply unchanged_of_find?_eq hh hf
        rw [hcounts]
        exact find?_updateCount_ne _ _ _ _ h
  · cases hr : m.set k a with
    | error e => exact unchanged_refl m k'
    | ok p =>
      obtain ⟨c, m'⟩ := p
      obtain ⟨hh, hf, hcase⟩ := set_ok_elim hr
      apply unchanged_of_find?_eq hh hf
      rcases hcase with ⟨hl, hadd⟩ | ⟨r, hl, hc, hcounts⟩
      · obtain ⟨ha, _, _, hcase'⟩ := add_ok_elim hadd
        rcases hcase' with ⟨_, _, hcounts⟩ | ⟨r, hl', _, _⟩
        · rw [hcounts]
          exact find?_append_single_ne _ _ _ h
        · rw [hl] at hl'; cases hl'
      · rw [hcounts]
        exact find?_updateCount_ne _ _ _ _ h
  · cases hl : m.lookup (m.hash.fn k) with
    | none => rw [delete_of_lookup_none hl]; exact unchanged_refl m k'
    | some r =>
        rw [delete_of_lookup_some hl]
        exact unchanged_of_find?_eq rfl rfl (find?_filter_ne _ _ _ h)

/-- Witness for `single_key_ops_frame` at a concrete input. -/
theorem single_key_ops_frame_witness :
    emptyStd.hash.fn 1 ≠ emptyStd.hash.fn 2 ∧
    (Unchanged emptyStd (resultOrSelf emptyStd (emptyStd.add 1 1)) 2 ∧
     Unchanged emptyStd (resultOrSelf emptyStd (emptyStd.subtract 1 1)) 2 ∧
     Unchanged emptyStd (resultOrSelf emptyStd (emptyStd.set 1 1)) 2 ∧
     Unchanged emptyStd (emptyStd.delete 1).2 2) :=
  ⟨by decide, single_key_ops_frame emptyStd 1 2 1 (by decide)⟩

/-- C5: `add` and `subtract` throw `RangeError` exactly when the amount is
    negative — independently of `allowNegativeCounts` — and succeed on every
    other input; a throw produces no result map, so it precedes any mutation. -/
theorem add_subtract_error_iff (m : CountMap) (k a : Int) :
    ((∃ e, m.add k a = .error e) ↔ a < 0) ∧
    ((∃ e, m.subtract k a = .error e) ↔ a < 0) := by
  constructor
  · constructor
    · rintro ⟨e, he⟩
      by_contra ha
      simp only [add] at he
      rw [if_neg ha] at he
      split at he <;> cases he
    · intro ha
      refine ⟨.rangeError ("Amount should be positive. Try using subtract method."), ?_⟩
      simp only [add]
      rw [if_pos ha]
  · constructor
    · rintro ⟨e, he⟩
      by_contra ha
      simp only [subtract] at he
      rw [if_neg ha] at he
      split at he <;> cases he
    · intro ha
      refine ⟨.rangeError ("Amount to subtract by should be positive."), ?_⟩
      simp only [subtract]
      rw [if_pos ha]

/-- C6: `subtract` on a key whose token is absent returns 0 and leaves the
    map literally unchanged (no entry created, so `has` stays false). -/
theorem subtract_absent_unchanged (m : CountMap) (k a : Int) (ha : 0 ≤ a)
    (h : m.has k = false) : m.subtract k a = .ok (0, m) := by
  have hl : m.lookup (m.hash.fn k) = none := by
    rw [has] at h
    cases hlk : m.lookup (m.hash.fn k)
    · rfl
    · rw [hlk] at h; cases h
  simp only [subtract]
  rw [if_neg (by omega), hl]

/-- Witness for `subtract_absent_unchanged`: `map.subtract(22)` on a fresh
    map returns 0 and the map is unchanged. -/
theorem subtract_absent_unchanged_witness :
    (0 : Int) ≤ 1 ∧ emptyStd.has 22 = false ∧
      emptyStd.subtract 22 1 = .ok (0, emptyStd) :=
  ⟨by decide, by decide, subtract_absent_unchanged emptyStd 22 1 (by decide) (by decide)⟩

end CountMap

namespace CountMap

theorem add_preserves_nonneg {m : CountMap} {k a c : Int} {m' : CountMap}
    (h : m.add k a = .ok (c, m')) (hm : NonNeg m) : NonNeg m' := by
  obtain ⟨ha, _, _, hcase⟩ := add_ok_elim h
  rcases hcase with ⟨_, _, hcounts⟩ | ⟨r, _, _, hcounts⟩
  · intro s hs
    rw [hcounts, List.mem_append] at hs
    rcases hs with hs | hs
    · exact hm s hs
    · rw [List.mem_singleton] at hs
      subst hs
      show (0 : Int) ≤ a
      omega
  · intro s hs
    rw [hcounts] at hs
    exact nonneg_updateCount _ _ _ hm (fun c0 hc0 => by omega) s hs

theorem subtract_preserves_nonneg {m : CountMap} {k a c : Int} {m' : CountMap}
    (hflag : m.allowNegativeCounts = false)
    (h : m.subtract k a = .ok (c, m')) (hm : NonNeg m) : NonNeg m' := by
  obtain ⟨ha, _, _, hcase⟩ := subtract_ok_elim h
  rcases hcase with ⟨_, _, hm'⟩ | ⟨r, hl, hc, hcounts⟩
  · rw [hm']; exact hm
  · have hc0 : 0 ≤ c := by
      rw [hc, hflag]
      by_cases hneg : r.count - a < 0
      · simp [hneg]
      · simp [hneg]
        omega
    intro s hs
    rw [hcounts] at hs
    exact nonneg_updateCount _ _ _ hm (fun _ _ => hc0) s hs

theorem set_preserves_nonneg {m : CountMap} {k a c : Int} {m' : CountMap}
    (hflag : m.allowNegativeCounts = false)
    (h : m.set k a = .ok (c, m')) (hm : NonNeg m) : NonNeg m' := by
  have ha : ¬ a < 0 := by
    intro ha
    rw [set, if_pos (by simp [hflag, ha])] at h
    cases h
  obtain ⟨_, _, hcase⟩ := set_ok_elim h
  rcases hcase with ⟨_, hadd⟩ | ⟨r, hl, hc, hcounts⟩
  · exact add_preserves_nonneg hadd hm
  · intro s hs
    rw [hcounts] at hs
    exact nonneg_updateCount _ _ _ hm (fun _ _ => by omega) s hs

theorem delete_preserves_nonneg {m : CountMap} (k : Int) (hm : NonNeg m) :
    NonNeg (m.delete k).2 := by
  cases hl : m.lookup (m.hash.fn k) with
  | none => rw [delete_of_lookup_none hl]; exact hm
  | some r =>
      rw [delete_of_lookup_some hl]
      intro s hs
      rw [List.mem_filter] at hs
      exact hm s hs.1

theorem addAll_preserves {arr : List Int} :
    ∀ {m m' : CountMap}, addAll m arr = .ok m' → NonNeg m →
      NonNeg m' ∧ m'.hash = m.hash ∧
        m'.allowNegativeCounts = m.allowNegativeCounts := by
  induction arr with
  | nil =>
      intro m m' h hm
      rw [addAll] at h
      cases h
      exact ⟨hm, rfl, rfl⟩
  | cons k rest ih =>
      intro m m' h hm
      rw [addAll] at h
      split at h
      · cases h
      · next c m1 hr =>
          obtain ⟨h1, h2, h3⟩ := ih h (add_preserves_nonneg hr hm)
          obtain ⟨_, hh, hf, _⟩ := add_ok_elim hr
          exact ⟨h1, h2.trans hh, h3.trans hf⟩

theorem addAllPairs_preserves {es : List (Int × Int)} :
    ∀ {m m' : CountMap}, addAllPairs m es = .ok m' → NonNeg m →
      NonNeg m' ∧ m'.hash = m.hash ∧
        m'.allowNegativeCounts = m.allowNegativeCounts := by
  induction es with
  | nil =>
      intro m m' h hm
      rw [addAllPairs] at h
      cases h
      exact ⟨hm, rfl, rfl⟩
  | cons p rest ih =>
      intro m m' h hm
      obtain ⟨k, c⟩ := p
      rw [addAllPairs] at h
      split at h
      · cases h
      · next c1 m1 hr =>
          obtain ⟨h1, h2, h3⟩ := ih h (add_preserves_nonneg hr hm)
          obtain ⟨_, hh, hf, _⟩ := add_ok_elim hr
          exact ⟨h1, h2.trans hh, h3.trans hf⟩

theorem setAll_preserves {es : List (Int × Int)} :
    ∀ {m m' : CountMap}, m.allowNegativeCounts = false →
      setAll m es = .ok m' → NonNeg m →
      NonNeg m' ∧ m'.hash = m.hash ∧
        m'.allowNegativeCounts = m.allowNegativeCounts := by
  induction es with
  | nil =>
      intro m m' hflag h hm
      rw [setAll] at h
      cases h
      exact ⟨hm, rfl, rfl⟩
  | cons p rest ih =>
      intro m m' hflag h hm
      obtain ⟨k, c⟩ := p
      rw [setAll] at h
      split at h
      · cases h
      · next c1 m1 hr =>
          obtain ⟨hh, hf, _⟩ := set_ok_elim hr
          obtain ⟨h1, h2, h3⟩ :=
            ih (hf.trans hflag) h (set_preserves_nonneg hflag hr hm)
          exact ⟨h1, h2.trans hh, h3.trans hf⟩

theorem clone_preserves {m m' : CountMap}
    (hflag : m.allowNegativeCounts = false)
    (h : m.clone = .ok m') : NonNeg m' := by
  rw [clone] at h
  have hmk : make [] m.hash m.allowNegativeCounts =
      .ok { counts := [], hash := m.hash,
            allowNegativeCounts := m.allowNegativeCounts } := rfl
  rw [hmk] at h
  exact (setAll_preserves (by simpa using hflag) h (by intro r hr; cases hr)).1

end CountMap

namespace CountMap

/-- C3: with `allowNegativeCounts = false`, every mutating operation that
    returns leaves every stored count `≥ 0` (`subtract` clamps at 0, keeping
    the record).  The construction bulk-load is the `Op.concat arr true`
    case applied to the empty map, whose table trivially satisfies `NonNeg`. -/
theorem mutations_preserve_nonneg (op : Op) (m m' : CountMap)
    (hflag : m.allowNegativeCounts = false) (hm : NonNeg m)
    (h : Op.apply op m = .ok m') : NonNeg m' := by
  cases op with
  | add k a =>
      rw [Op.apply] at h
      split at h
      · cases h
      · next c m1 hr =>
          cases h
          exact add_preserves_nonneg hr hm
  | subtract k a =>
      rw [Op.apply] at h
      split at h
      · cases h
      · next c m1 hr =>
          cases h
          exact subtract_preserves_nonneg hflag hr hm
  | set k a =>
      rw [Op.apply] at h
      split at h
      · cases h
      · next c m1 hr =>
          cases h
          exact set_preserves_nonneg hflag hr hm
  | delete k =>
      rw [Op.apply] at h
      cases h
      exact delete_preserves_nonneg k hm
  | clone =>
      rw [Op.apply] at h
      exact clone_preserves hflag h
  | rehash =>
      rw [Op.apply, rehash] at h
      exact (addAllPairs_preserves h hm).1
  | concat arr ip =>
      rw [Op.apply, concat] at h
      cases ip with
      | true =>
          rw [if_pos rfl] at h
          exact (addAll_preserves h hm).1
      | false =>
          rw [if_neg (by simp)] at h
          split at h
          · cases h
          · next target hc =>
              have h1 : NonNeg target := clone_preserves hflag hc
              exact (addAll_preserves h h1).1

/-- Witness for `mutations_preserve_nonneg` at a concrete input. -/
theorem mutations_preserve_nonneg_witness :
    pairMap.allowNegativeCounts = false ∧ NonNeg pairMap ∧ NonNeg pairMapClamped :=
  ⟨rfl, by decide,
    mutations_preserve_nonneg (.subtract 1 5) pairMap pairMapClamped rfl (by decide) rfl⟩

end CountMap

namespace CountMap

theorem get_of_lookup_none {m : CountMap} {K : Int}
    (h : m.lookup (m.hash.fn K) = none) : m.get K = 0 := by
  rw [get, h]

theorem get_of_lookup_some {m : CountMap} {K : Int} {r : CountObject}
    (h : m.lookup (m.hash.fn K) = some r) : m.get K = r.count := by
  rw [get, h]

theorem add_of_lookup_none {m : CountMap} {k a : Int} (ha : ¬ a < 0)
    (hl : m.lookup (m.hash.fn k) = none) :
    m.add k a = .ok (a, { m with counts := m.counts ++ [({ hash := m.hash.fn k, key := k, count := a } : CountObject)] }) := by
  simp only [add]
  rw [if_neg ha, hl]

theorem add_of_lookup_some {m : CountMap} {k a : Int} {r : CountObject} (ha : ¬ a < 0)
    (hl : m.lookup (m.hash.fn k) = some r) :
    m.add k a = .ok (r.count + a,
      { m with counts := updateCount m.counts (m.hash.fn k) (· + a) }) := by
  simp only [add]
  rw [if_neg ha, hl]

theorem add_ok_same_token {m : CountMap} {k K a : Int}
    (htok : m.hash.fn k = m.hash.fn K) (ha : 0 ≤ a) :
    ∃ m', m.add k a = .ok (m.get K + a, m') ∧ m'.get K = m.get K + a ∧
      m'.hash = m.hash := by
  have ha' : ¬ a < 0 := by omega
  cases hl : m.lookup (m.hash.fn k) with
  | none =>
      have hK : m.lookup (m.hash.fn K) = none := by rw [← htok]; exact hl
      have hget : m.get K = 0 := get_of_lookup_none hK
      refine ⟨{ m with counts := m.counts ++ [({ hash := m.hash.fn k, key := k, count := a } : CountObject)] }, ?_, ?_, rfl⟩
      · rw [add_of_lookup_none ha' hl, hget, zero_add]
      · have hK' : ({ m with counts := m.counts ++ [({ hash := m.hash.fn k, key := k, count := a } : CountObject)] } :
            CountMap).lookup (m.hash.fn K) = some ({ hash := m.hash.fn k, key := k, count := a } : CountObject) := by
          show (m.counts ++ [({ hash := m.hash.fn k, key := k, count := a } : CountObject)]).find?
              (fun s => s.hash == m.hash.fn K) = _
          rw [List.find?_append,
            show m.counts.find? (fun s => s.hash == m.hash.fn K) = none from hK]
          simp [htok]
        rw [get_of_lookup_some hK', hget, zero_add]
  | some r =>
      have hK : m.lookup (m.hash.fn K) = some r := by rw [← htok]; exact hl
      have hget : m.get K = r.count := get_of_lookup_some hK
      refine ⟨{ m with counts := updateCount m.counts (m.hash.fn k) (· + a) },
        ?_, ?_, rfl⟩
      · rw [add_of_lookup_some ha' hl, hget]
      · have hK' : ({ m with counts := updateCount m.counts (m.hash.fn k) (· + a) } :
            CountMap).lookup (m.hash.fn K) = some { r with count := r.count + a } := by
          show (updateCount m.counts (m.hash.fn k) (· + a)).find?
              (fun s => s.hash == m.hash.fn K) = _
          rw [← htok, find?_updateCount_self,
            show m.counts.find? (fun s => s.hash == m.hash.fn k) = some r from hl]
          rfl
        rw [get_of_lookup_some hK', hget]

theorem addAllPairs_accumulates {K : Int} :
    ∀ (ops : List (Int × Int)) (m : CountMap),
      (∀ p ∈ ops, m.hash.fn p.1 = m.hash.fn K ∧ 0 ≤ p.2) →
      ∃ m', addAllPairs m ops = .ok m' ∧
        m'.get K = m.get K + (ops.map Prod.snd).sum ∧ m'.hash = m.hash := by
  intro ops
  induction ops with
  | nil =>
      intro m h
      exact ⟨m, rfl, by simp, rfl⟩
  | cons p rest ih =>
      intro m h
      obtain ⟨k, a⟩ := p
      have hp := h (k, a) (List.mem_cons_self _ _)
      obtain ⟨m1, hadd, hget1, hh1⟩ := add_ok_same_token hp.1 hp.2
      have hrest : ∀ q ∈ rest, m1.hash.fn q.1 = m1.hash.fn K ∧ 0 ≤ q.2 := by
        intro q hq
        rw [hh1]
        exact h q (List.mem_cons_of_mem _ hq)
      obtain ⟨m', hfold, hget, hh⟩ := ih m1 hrest
      refine ⟨m', ?_, ?_, hh.trans hh1⟩
      · rw [addAllPairs, hadd]
        exact hfold
      · rw [hget, hget1, List.map_cons, List.sum_cons]
        exact add_assoc _ _ _

/-- C4: replaying `add(kᵢ, aᵢ)` calls whose keys all share `K`'s hash token,
    with non-negative amounts, accumulates: `get(K)` grows by the sum of the
    amounts, and every successful `add` returns the resulting count.  The
    construction bulk-load is such a replay with amount 1 per element; on the
    spec's concrete array it yields `get(1) = 3`, `get(2) = 2`, `get(4) = 3`,
    `get(18) = 1` and `has(-1) = false`. -/
theorem add_accumulates (m : CountMap) (K : Int) (ops : List (Int × Int))
    (h : ∀ p ∈ ops, m.hash.fn p.1 = m.hash.fn K ∧ 0 ≤ p.2) :
    (∃ m', addAllPairs m ops = .ok m' ∧
        m'.get K = m.get K + (ops.map Prod.snd).sum) ∧
    (∀ (k a c : Int) (m₁ m₂ : CountMap), m₁.add k a = .ok (c, m₂) → c = m₂.get k) ∧
    (CountMap.make testItems).map
        (fun M => (M.get 1, M.get 2, M.get 4, M.get 18, M.has (-1))) =
      .ok (3, 2, 3, 1, false) := by
  refine ⟨?_, ?_, ?_⟩
  · obtain ⟨m', h1, h2, _⟩ := addAllPairs_accumulates ops m h
    exact ⟨m', h1, h2⟩
  · intro k a c m₁ m₂ hr
    obtain ⟨ha, _, _, _⟩ := add_ok_elim hr
    obtain ⟨m'', hadd, hget, _⟩ :=
      add_ok_same_token (rfl : m₁.hash.fn k = m₁.hash.fn k) (by omega : (0:Int) ≤ a)
    rw [hr] at hadd
    injection hadd with h1
    injection h1 with hc hm
    subst hm
    rw [hc]
    exact hget.symm
  · rfl

/-- Witness for `add_accumulates` at a concrete input. -/
theorem add_accumulates_witness :
    (∀ p ∈ [((5 : Int), (2 : Int)), (5, 3)],
        emptyStd.hash.fn p.1 = emptyStd.hash.fn 5 ∧ 0 ≤ p.2) ∧
    (∃ m', addAllPairs emptyStd [(5, 2), (5, 3)] = .ok m' ∧
        m'.get 5 = emptyStd.get 5 + ([((5 : Int), (2 : Int)), (5, 3)].map Prod.snd).sum) :=
  ⟨by decide, (add_accumulates emptyStd 5 [(5, 2), (5, 3)] (by decide)).1⟩

end CountMap

namespace CountMap

theorem equals_eq_true_iff (m o : CountMap) : m.equals o = true ↔ equalsSpec m o := by
  rw [equals, equalsSpec]
  by_cases h1 : o.hash.src = m.hash.src
  · by_cases h2 : o.allowNegativeCounts = m.allowNegativeCounts
    · rw [if_neg (by simp [h1, h2])]
      simp only [Bool.and_eq_true, List.all_eq_true, beq_iff_eq]
      constructor
      · rintro ⟨ha, hb⟩
        exact ⟨h1.symm, h2.symm, fun k hk => hk.elim (hb k) (ha k)⟩
      · rintro ⟨_, _, hc⟩
        exact ⟨fun k hk => hc k (Or.inr hk), fun k hk => hc k (Or.inl hk)⟩
    · rw [if_pos (by simp [h2])]
      constructor
      · intro h; cases h
      · rintro ⟨_, hf, _⟩
        exact absurd hf.symm h2
  · rw [if_pos (by simp [h1])]
    constructor
    · intro h; cases h
    · rintro ⟨hs, _, _⟩
      exact absurd hs.symm h1

theorem equalsSpec_symm {m o : CountMap} : equalsSpec m o ↔ equalsSpec o m := by
  constructor
  · rintro ⟨a, b, c⟩
    exact ⟨a.symm, b.symm, fun k hk => (c k hk.symm).symm⟩
  · rintro ⟨a, b, c⟩
    exact ⟨a.symm, b.symm, fun k hk => (c k hk.symm).symm⟩

/-- C7: `equals` returns true exactly when the hash functions' source texts
    coincide, the flags coincide, and `get` agrees on every representative
    key of either map; checking both key sets makes it symmetric. -/
theorem equals_characterization (m o : CountMap) :
    (m.equals o = true ↔ equalsSpec m o) ∧ m.equals o = o.equals m := by
  refine ⟨equals_eq_true_iff m o, ?_⟩
  rw [← Bool.coe_iff_coe, equals_eq_true_iff, equals_eq_true_iff]
  exact equalsSpec_symm

theorem toArray_foldl_length (es : List (Int × Int)) :
    ∀ arr : List Int,
      (es.foldl (fun arr e => arr ++ List.replicate e.2.toNat e.1) arr).length =
        arr.length + (es.map (fun e => e.2.toNat)).sum := by
  induction es with
  | nil => intro arr; simp
  | cons e rest ih =>
      intro arr
      rw [List.foldl_cons, ih, List.map_cons, List.sum_cons]
      simp only [List.length_append, List.length_replicate]
      omega

theorem toArray_foldl_eq (es : List (Int × Int)) :
    ∀ arr : List Int,
      es.foldl (fun arr e => arr ++ List.replicate e.2.toNat e.1) arr =
        arr ++ es.flatMap (fun e => List.replicate e.2.toNat e.1) := by
  induction es with
  | nil => intro arr; simp
  | cons e rest ih =>
      intro arr
      rw [List.foldl_cons, ih, List.flatMap_cons, List.append_assoc]

/-- C9: `toArray()` has length equal to the sum of the non-negative stored
    counts: each record contributes `max(count, 0)` repetitions of its
    representative key, so records with zero or negative counts contribute
    none (and raise no error, since `toArray` is total). -/
theorem toArray_length (m : CountMap) :
    ((m.toArray).length : Int) = (m.counts.map (fun r => max r.count 0)).sum ∧
    m.toArray = m.counts.flatMap (fun r => List.replicate r.count.toNat r.key) := by
  refine ⟨?_, ?_⟩
  swap
  · rw [toArray, toArray_foldl_eq, List.nil_append, entries]
    rw [List.flatMap, List.map_map]
    rfl
  rw [toArray, toArray_foldl_length]
  simp only [List.length_nil, Nat.zero_add, entries, List.map_map]
  induction m.counts with
  | nil => simp
  | cons r rest ih =>
      simp only [List.map_cons, List.sum_cons, Nat.cast_add, Function.comp_apply]
      rw [Int.toNat_eq_max, ih]
end CountMap

namespace CountMap

/-- C1: `rehash()` does not rebuild the table from scratch.  The source line
    `this.count = {}` assigns an unused property (a typo for `this.counts`),
    so the old records survive and the entries are re-added on top: after
    changing the hash of a `{2, 3}` map to `round(x/2)`, the table holds
    three records — the stale tokens `"2"` (its count doubled by the re-add
    of key 3, whose new token collides with it) and `"3"`, plus the new token
    `"1"` — not the single merged record the claim describes (and a correct
    rebuild would give two records, since `round(2/2) = 1 ≠ 2 = round(3/2)`). -/
theorem rehash_keeps_old_table :
    rehashDemo.map (fun m => (m.counts, m.get 2, m.get 3)) =
      .ok ([{ hash := "2", key := 2, count := 2 },
            { hash := "3", key := 3, count := 1 },
            { hash := "1", key := 2, count := 1 }], 1, 2) := by
  rfl

/-- C2: in negative mode, `set` with a negative amount succeeds only when the
    token is already present.  On an absent token `set` delegates to `add`,
    whose guard rejects every negative amount, so `set(8, -3)` on an empty
    `allowNegativeCounts = true` map throws `RangeError` — contradicting the
    claim that it succeeds whether or not a record exists.  (On a present
    token it does succeed and `get(8)` is `-3`.) -/
theorem set_negative_absent_throws :
    setNegativeAbsentDemo =
      .error (.rangeError ("Amount should be positive. Try using subtract method.")) ∧
    setNegativePresentDemo = .ok (-3, -3) := by
  exact ⟨rfl, rfl⟩

/-- C8: `clone()` throws on a map holding a negative count.  The clone
    re-establishes each record via `set(key, count)`; on the fresh (empty)
    clone every token is absent, so `set` delegates to `add`, whose guard
    rejects the negative count — contradicting the claim that `clone()`
    always returns a map with `equals(original)` true.  (In a pure embedding
    the independence half is immediate; the crash is the refutation.) -/
theorem clone_negative_count_throws :
    cloneNegativeDemo =
      .error (.rangeError ("Amount should be positive. Try using subtract method.")) := by
  rfl

end CountMap
